import Mathlib

/-!
Shallow embedding of the compatibility-matching core of `services.py`
(device catalog, verified-link graph, dimension-bounds aggregator,
compatibility evaluator, compatible-set search, catalog upsert and the
notch normaliser), together with theorems settling the frozen claims.

Conventions of the embedding:
* SQLite REAL columns are modelled as `ℚ` (exact linear arithmetic over
  the values the program manipulates).
* A database snapshot is a pair of row lists: the `glasses` table and the
  `compatible_devices` table.  `SELECT ... WHERE` becomes `List.filter`,
  `fetchone` on a primary-key lookup becomes `List.find?`, a dangling
  join is `Option`-skipped exactly as the Python code skips it.
* Python's `abs`, `min`, `max` are embedded as the executable `rabs`,
  `qmin`, `qmax` below (same if-then-else semantics on `ℚ`).
-/

namespace GlassBot

/-- Python's `abs` on a rational value. -/
def rabs (x : ℚ) : ℚ := if x < 0 then -x else x

/-- Python's binary `min` on rationals. -/
def qmin (a b : ℚ) : ℚ := if a ≤ b then a else b

/-- Python's binary `max` on rationals. -/
def qmax (a b : ℚ) : ℚ := if a ≤ b then b else a

/-- One row of the `glasses` table: `(brand, model, height_mm, width_mm,
diagonal_in, notch_type)`. -/
structure Device where
  brand : String
  model : String
  height : ℚ
  width : ℚ
  diagonal : ℚ
  notch : String
  deriving DecidableEq, Repr

/-- Device area, `height * width`, as computed inside
`get_verified_dimension_bounds` and `find_compatible_glasses`. -/
def Device.area (d : Device) : ℚ := d.height * d.width

/-- One row of the `compatible_devices` table. -/
structure Link where
  device_brand : String
  device_model : String
  compat_brand : String
  compat_model : String
  deriving DecidableEq, Repr

/-- A snapshot of the two tables the matching core reads. -/
structure DB where
  glasses : List Device
  links : List Link
  deriving Repr

/-- The composite primary key `(brand, model)` of a catalog row. -/
def deviceKey (d : Device) : String × String := (d.brand, d.model)

/-- Key of a tagged result entry. -/
def entryKey (e : Device × String) : String × String := deviceKey e.1

/-- Embedding of `VALID_NOTCH_TYPES` from `services.py`. -/
def VALID_NOTCH_TYPES : List String :=
  ["None", "Punch-hole", "Waterdrop", "Notch", "Full"]

/-- Python `str.strip` / `str.title` helpers, restricted to the ASCII
strings the program stores: `stripChars` drops whitespace from both
ends. -/
def stripChars (cs : List Char) : List Char :=
  ((cs.dropWhile Char.isWhitespace).reverse.dropWhile Char.isWhitespace).reverse

/-- Embedding of Python `str.title`: a letter is uppercased when the previous character is
not a letter and lowercased otherwise; non-letters pass through and
reset the word boundary (Python's titlecase on ASCII input). -/
def titleChars : Bool → List Char → List Char
  | _, [] => []
  | prevAlpha, c :: cs =>
    if c.isAlpha then
      (if prevAlpha then c.toLower else c.toUpper) :: titleChars true cs
    else
      c :: titleChars false cs

/-- Embedding of `s.strip()`. -/
def pyStrip (s : String) : String := ⟨stripChars s.data⟩

/-- Embedding of `s.title()`. -/
def pyTitle (s : String) : String := ⟨titleChars false s.data⟩

/-- Embedding of `normalize_notch_type` from `services.py`: strip, titlecase, then
keep the result only if it is a valid notch class, else `"None"`. -/
def normalize_notch_type (s : String) : String :=
  let t := pyTitle (pyStrip s)
  if t ∈ VALID_NOTCH_TYPES then t else "None"

/-- Embedding of `validate_device_dimensions` from `services.py`. -/
def validate_device_dimensions (h w d : ℚ) : Bool :=
  decide (0 < h ∧ h ≤ 300) && decide (0 < w ∧ w ≤ 200) && decide (0 < d ∧ d ≤ 10)

/-- Embedding of `check_compat(guard_spec, device_spec, height_tol, width_tol,
diagonal_tol)` from `services.py`. -/
def check_compat (guard target : Device) (height_tol width_tol diagonal_tol : ℚ) : Bool :=
  let notch_compatible :=
    guard.notch == target.notch || guard.notch == "None" || target.notch == "None"
  let height_compatible :=
    decide (rabs (target.height - guard.height) ≤ height_tol ∧ guard.height ≤ target.height)
  let width_compatible :=
    decide (rabs (target.width - guard.width) ≤ width_tol ∧ guard.width ≤ target.width)
  let diagonal_compatible :=
    decide (rabs (target.diagonal - guard.diagonal) ≤ diagonal_tol)
  height_compatible && width_compatible && diagonal_compatible && notch_compatible

/-- Embedding of `SELECT ... FROM glasses WHERE brand=? AND model=?` with `fetchone`. -/
def findDevice (db : DB) (brand model : String) : Option Device :=
  db.glasses.find? (fun g => g.brand == brand && g.model == model)

/-- Embedding of `get_compatible_devices`: the `(compatible_brand, compatible_model)`
pairs linked from `(brand, model)`. -/
def get_compatible_devices (db : DB) (brand model : String) : List (String × String) :=
  (db.links.filter (fun l => l.device_brand == brand && l.device_model == model)).map
    (fun l => (l.compat_brand, l.compat_model))

/-- The rows produced by the `JOIN` half of the bounds query: linked
targets that still exist in the catalog (dangling links are skipped). -/
def linkedRows (db : DB) (brand model : String) : List Device :=
  (get_compatible_devices db brand model).filterMap (fun p => findDevice db p.1 p.2)

/-- The `UNION` half of the bounds query: the device's own row, when
present. -/
def selfRows (db : DB) (brand model : String) : List Device :=
  (findDevice db brand model).toList

/-- The full row set scanned by `get_verified_dimension_bounds`. -/
def boundsRows (db : DB) (brand model : String) : List Device :=
  linkedRows db brand model ++ selfRows db brand model

/-- The `bounds` dictionary built by `get_verified_dimension_bounds`. -/
structure Bounds where
  min_height : ℚ
  max_height : ℚ
  min_width : ℚ
  max_width : ℚ
  min_diagonal : ℚ
  max_diagonal : ℚ
  notch_types : List String
  deriving DecidableEq, Repr

/-- Loop state of `get_verified_dimension_bounds`. -/
structure BAcc where
  env : Bounds
  largest : Device
  largest_area : ℚ
  smallest : Device
  smallest_area : ℚ
  deriving Repr

/-- Adding one notch class to the running set (`set.add`). -/
def addNotch (l : List String) (n : String) : List String :=
  if n ∈ l then l else l ++ [n]

/-- State after the first loop iteration (the `inf`/`-inf` seeds make the
first row win every comparison). -/
def initAcc (r : Device) : BAcc :=
  { env := { min_height := r.height, max_height := r.height,
             min_width := r.width, max_width := r.width,
             min_diagonal := r.diagonal, max_diagonal := r.diagonal,
             notch_types := [r.notch] },
    largest := r, largest_area := r.area,
    smallest := r, smallest_area := r.area }

/-- One iteration of the bounds loop. -/
def stepAcc (acc : BAcc) (r : Device) : BAcc :=
  { env := { min_height := qmin acc.env.min_height r.height,
             max_height := qmax acc.env.max_height r.height,
             min_width := qmin acc.env.min_width r.width,
             max_width := qmax acc.env.max_width r.width,
             min_diagonal := qmin acc.env.min_diagonal r.diagonal,
             max_diagonal := qmax acc.env.max_diagonal r.diagonal,
             notch_types := addNotch acc.env.notch_types r.notch },
    largest := if acc.largest_area < r.area then r else acc.largest,
    largest_area := if acc.largest_area < r.area then r.area else acc.largest_area,
    smallest := if r.area < acc.smallest_area then r else acc.smallest,
    smallest_area := if r.area < acc.smallest_area then r.area else acc.smallest_area }

/-- Embedding of `get_verified_dimension_bounds`: `(largest, smallest, bounds)` or the
null triple when the scanned row set is empty. -/
def get_verified_dimension_bounds (db : DB) (brand model : String) :
    Option Device × Option Device × Option Bounds :=
  match boundsRows db brand model with
  | [] => (none, none, none)
  | r :: rs =>
    let acc := rs.foldl stepAcc (initAcc r)
    (some acc.largest, some acc.smallest, some acc.env)

/-- The verified branch of `find_compatible_glasses`: for each link
target still in the catalog, keep it tagged `Verified` when the
zero-tolerance `check_compat` passes (base as guard); missing rows and
failing rows are silently skipped. -/
def verifiedRows (db : DB) (base : Device) : List (Device × String) :=
  (get_compatible_devices db base.brand base.model).filterMap (fun p =>
    match findDevice db p.1 p.2 with
    | none => none
    | some dev =>
      if check_compat base dev 0 0 0 then some (dev, "Verified") else none)

/-- The null-bounds fallback scan.  Faithful to the source: the upper
width bound is `base_w + height_tol` (`services.py` line 397), and there
is no area filter on this branch. -/
def fallbackScan (db : DB) (base : Device) (height_tol width_tol diagonal_tol : ℚ) :
    List Device :=
  db.glasses.filter (fun g =>
    decide (base.height - height_tol ≤ g.height ∧ g.height ≤ base.height + height_tol) &&
    decide (base.width - width_tol ≤ g.width ∧ g.width ≤ base.width + height_tol) &&
    decide (base.diagonal - diagonal_tol ≤ g.diagonal ∧ g.diagonal ≤ base.diagonal + diagonal_tol) &&
    (g.notch == base.notch || g.notch == "None" || base.notch == "None"))

/-- The envelope scan of the bounds branch.  Faithful to the source: the
upper width bound is `bounds['max_width'] + height_tol` (`services.py`
line 415); the notch filter is membership in the envelope classes plus
`"None"`. -/
def envelopeScan (db : DB) (bd : Bounds) (height_tol width_tol diagonal_tol : ℚ) :
    List Device :=
  let valid := "None" :: bd.notch_types
  db.glasses.filter (fun g =>
    decide (bd.min_height - height_tol ≤ g.height ∧ g.height ≤ bd.max_height + height_tol) &&
    decide (bd.min_width - width_tol ≤ g.width ∧ g.width ≤ bd.max_width + height_tol) &&
    decide (bd.min_diagonal - diagonal_tol ≤ g.diagonal ∧ g.diagonal ≤ bd.max_diagonal + diagonal_tol) &&
    valid.contains g.notch)

/-- The area-filtered, tagged dimension-based rows of the bounds branch. -/
def dimensionRows (db : DB) (base : Device) (bd : Bounds)
    (height_tol width_tol diagonal_tol : ℚ) : List (Device × String) :=
  ((envelopeScan db bd height_tol width_tol diagonal_tol).filter
      (fun g => decide (g.area ≤ base.area))).map
    (fun g => (g, "Dimension-based"))

/-- The final merge loop: first-seen-wins deduplication on
`(brand, model)`. -/
def dedupKeys (seen : List (String × String)) :
    List (Device × String) → List (Device × String)
  | [] => []
  | e :: rest =>
    if entryKey e ∈ seen then dedupKeys seen rest
    else e :: dedupKeys (entryKey e :: seen) rest

/-- Embedding of `find_compatible_glasses` after name resolution: `base` is the spec
the fuzzy resolver produced.  Null bounds take the fallback branch
(whose return discards `verified_rows`, which are provably empty there);
otherwise verified rows and area-filtered envelope rows are merged with
first-seen dedup. -/
def find_compatible_glasses (db : DB) (base : Device)
    (height_tol width_tol diagonal_tol : ℚ) : List (Device × String) :=
  match (get_verified_dimension_bounds db base.brand base.model).2.2 with
  | none =>
    (fallbackScan db base height_tol width_tol diagonal_tol).map
      (fun g => (g, "Dimension-based"))
  | some bd =>
    dedupKeys [] (verifiedRows db base ++
      dimensionRows db base bd height_tol width_tol diagonal_tol)

/-- Mutable process state touched by `add_glass`: the `glasses` table and
the display-list cache (`None` = invalidated). -/
structure BotState where
  glasses : List Device
  display_cache : Option (List (String × Device))
  deriving Repr

/-- Embedding of `INSERT OR REPLACE` on the `(brand, model)` primary key. -/
def upsertRow (gs : List Device) (d : Device) : List Device :=
  (gs.filter (fun g => !(g.brand == d.brand && g.model == d.model))) ++ [d]

/-- Embedding of `add_glass`: validate, then upsert the normalized row and clear the
display-list cache; on validation failure raise (returned as `some`
error message) before touching any state. -/
def add_glass (st : BotState) (brand model : String) (h w d : ℚ) (nt : String) :
    BotState × Option String :=
  if validate_device_dimensions h w d then
    ({ glasses := upsertRow st.glasses ⟨brand, model, h, w, d, normalize_notch_type nt⟩,
       display_cache := none }, none)
  else
    (st, some "Invalid device dimensions")

/-- Membership of a device in a bounds envelope (each dimension between
the envelope's min and max). -/
def envMem (bd : Bounds) (r : Device) : Prop :=
  bd.min_height ≤ r.height ∧ r.height ≤ bd.max_height ∧
  bd.min_width ≤ r.width ∧ r.width ≤ bd.max_width ∧
  bd.min_diagonal ≤ r.diagonal ∧ r.diagonal ≤ bd.max_diagonal

/-- Invariant of the bounds loop: the accumulator summarises exactly the
rows seen so far. -/
def AccInv (l : List Device) (acc : BAcc) : Prop :=
  acc.largest ∈ l ∧ acc.smallest ∈ l ∧
  acc.largest_area = acc.largest.area ∧
  acc.smallest_area = acc.smallest.area ∧
  (∀ r ∈ l, r.area ≤ acc.largest_area) ∧
  (∀ r ∈ l, acc.smallest_area ≤ r.area) ∧
  (∀ r ∈ l, envMem acc.env r) ∧
  (∀ r ∈ l, r.notch ∈ acc.env.notch_types) ∧
  (∀ n ∈ acc.env.notch_types, ∃ r ∈ l, r.notch = n) ∧
  (∃ r ∈ l, acc.env.min_height = r.height) ∧
  (∃ r ∈ l, acc.env.max_height = r.height) ∧
  (∃ r ∈ l, acc.env.min_width = r.width) ∧
  (∃ r ∈ l, acc.env.max_width = r.width) ∧
  (∃ r ∈ l, acc.env.min_diagonal = r.diagonal) ∧
  (∃ r ∈ l, acc.env.max_diagonal = r.diagonal)

/-- Concrete catalog rows and snapshots used by witnesses and
counterexamples. -/
def devBase : Device := ⟨"A", "1", 100, 50, 6, "None"⟩

def devC3 : Device := ⟨"A", "2", 95, 51, 6, "None"⟩

def devT : Device := ⟨"A", "2", 100, 50, 6, "None"⟩

def devF : Device := ⟨"A", "3", 120, 80, 7, "None"⟩

def devBig : Device := ⟨"A", "2", 105, 55, 6, "None"⟩

def devWide : Device := ⟨"A", "3", 100, 53, 6, "None"⟩

def envB3 : Bounds := ⟨100, 100, 50, 50, 6, 6, ["None"]⟩

def db3 : DB := ⟨[devBase, devC3], []⟩

def db5 : DB := ⟨[devBig], []⟩

def db6 : DB := ⟨[devBase], []⟩

def db6c : DB := ⟨[devWide], []⟩

def dbV : DB := ⟨[devBase, devT, devF], [⟨"A", "1", "A", "2"⟩, ⟨"A", "1", "A", "3"⟩]⟩

def wGuard : Device := ⟨"G", "1", 100, 50, 6, "None"⟩

def wTarget : Device := ⟨"S", "2", 101, 51, 6, "Notch"⟩

/-! ## Helper lemmas -/

theorem qmin_le_left (a b : ℚ) : qmin a b ≤ a := by
  unfold qmin
  split
  next => exact le_rfl
  next h => exact le_of_not_le h

theorem qmin_le_right (a b : ℚ) : qmin a b ≤ b := by
  unfold qmin
  split
  next h => exact h
  next => exact le_rfl

theorem left_le_qmax (a b : ℚ) : a ≤ qmax a b := by
  unfold qmax
  split
  next h => exact h
  next => exact le_rfl

theorem right_le_qmax (a b : ℚ) : b ≤ qmax a b := by
  unfold qmax
  split
  next => exact le_rfl
  next h => exact le_of_not_le h

theorem qmin_choice (a b : ℚ) : qmin a b = a ∨ qmin a b = b := by
  unfold qmin
  split
  next => exact Or.inl rfl
  next => exact Or.inr rfl

theorem qmax_choice (a b : ℚ) : qmax a b = a ∨ qmax a b = b := by
  unfold qmax
  split
  next => exact Or.inr rfl
  next => exact Or.inl rfl

theorem rabs_eq_abs (x : ℚ) : rabs x = |x| := by
  unfold rabs
  split
  next h => exact (abs_of_neg h).symm
  next h => exact (abs_of_nonneg (not_lt.mp h)).symm

theorem mem_addNotch_left {l : List String} {a : String} (h : a ∈ l) (n : String) :
    a ∈ addNotch l n := by
  unfold addNotch
  split
  · exact h
  · exact List.mem_append_left _ h

theorem mem_addNotch_self (l : List String) (n : String) : n ∈ addNotch l n := by
  unfold addNotch
  split
  next h => exact h
  next => exact List.mem_append_right _ (List.mem_singleton.mpr rfl)

theorem mem_addNotch_elim {l : List String} {a n : String} (h : a ∈ addNotch l n) :
    a ∈ l ∨ a = n := by
  unfold addNotch at h
  split at h
  · exact Or.inl h
  · rcases List.mem_append.mp h with h1 | h2
    · exact Or.inl h1
    · exact Or.inr (List.mem_singleton.mp h2)

theorem findDevice_some {db : DB} {b m : String} {g : Device}
    (h : findDevice db b m = some g) : g ∈ db.glasses ∧ g.brand = b ∧ g.model = m := by
  have hmem := List.mem_of_find?_eq_some h
  have hp := List.find?_some h
  simp only [Bool.and_eq_true, beq_iff_eq] at hp
  exact ⟨hmem, hp.1, hp.2⟩

theorem findDevice_not_none {db : DB} {g : Device} (hg : g ∈ db.glasses) :
    findDevice db g.brand g.model ≠ none := by
  intro h
  rw [findDevice, List.find?_eq_none] at h
  exact h g hg (by simp)

theorem findDevice_none_no_match {db : DB} {p : String × String}
    (h : findDevice db p.1 p.2 = none) : ∀ g ∈ db.glasses, deviceKey g ≠ p := by
  rw [findDevice, List.find?_eq_none] at h
  intro g hg hk
  obtain ⟨p1, p2⟩ := p
  rw [deviceKey, Prod.mk.injEq] at hk
  exact h g hg (by simp [hk.1, hk.2])

theorem bounds_none_iff (db : DB) (b m : String) :
    (get_verified_dimension_bounds db b m).2.2 = none ↔ boundsRows db b m = [] := by
  cases h : boundsRows db b m with
  | nil => simp [get_verified_dimension_bounds, h]
  | cons r rs => simp [get_verified_dimension_bounds, h]

theorem accInv_init (r : Device) : AccInv [r] (initAcc r) := by
  refine ⟨?_, ?_, rfl, rfl, ?_, ?_, ?_, ?_, ?_, ?_, ?_, ?_, ?_, ?_, ?_⟩ <;>
    simp [initAcc, envMem]

theorem accInv_step {l : List Device} {acc : BAcc} (h : AccInv l acc) (r : Device) :
    AccInv (l ++ [r]) (stepAcc acc r) := by
  obtain ⟨hL, hS, hLa, hSa, hmaxa, hmina, henv, hnin, hnex,
    he1, he2, he3, he4, he5, he6⟩ := h
  refine ⟨?_, ?_, ?_, ?_, ?_, ?_, ?_, ?_, ?_, ?_, ?_, ?_, ?_, ?_, ?_⟩
  · show (if acc.largest_area < r.area then r else acc.largest) ∈ l ++ [r]
    split
    · exact List.mem_append_right _ (List.mem_singleton.mpr rfl)
    · exact List.mem_append_left _ hL
  · show (if r.area < acc.smallest_area then r else acc.smallest) ∈ l ++ [r]
    split
    · exact List.mem_append_right _ (List.mem_singleton.mpr rfl)
    · exact List.mem_append_left _ hS
  · show (if acc.largest_area < r.area then r.area else acc.largest_area) =
      (if acc.largest_area < r.area then r else acc.largest).area
    split
    · rfl
    · exact hLa
  · show (if r.area < acc.smallest_area then r.area else acc.smallest_area) =
      (if r.area < acc.smallest_area then r else acc.smallest).area
    split
    · rfl
    · exact hSa
  · intro x hx
    show x.area ≤ if acc.largest_area < r.area then r.area else acc.largest_area
    rcases List.mem_append.mp hx with h1 | h2
    · have := hmaxa x h1
      split
      next hlt => exact le_of_lt (lt_of_le_of_lt this hlt)
      next => exact this
    · rw [List.mem_singleton.mp h2]
      split
      next => exact le_rfl
      next hlt => exact not_lt.mp hlt
  · intro x hx
    show (if r.area < acc.smallest_area then r.area else acc.smallest_area) ≤ x.area
    rcases List.mem_append.mp hx with h1 | h2
    · have := hmina x h1
      split
      next hlt => exact le_of_lt (lt_of_lt_of_le hlt this)
      next => exact this
    · rw [List.mem_singleton.mp h2]
      split
      next => exact le_rfl
      next hlt => exact not_lt.mp hlt
  · intro x hx
    rcases List.mem_append.mp hx with h1 | h2
    · obtain ⟨e1, e2, e3, e4, e5, e6⟩ := henv x h1
      exact ⟨le_trans (qmin_le_left _ _) e1, le_trans e2 (left_le_qmax _ _),
        le_trans (qmin_le_left _ _) e3, le_trans e4 (left_le_qmax _ _),
        le_trans (qmin_le_left _ _) e5, le_trans e6 (left_le_qmax _ _)⟩
    · rw [List.mem_singleton.mp h2]
      exact ⟨qmin_le_right _ _, right_le_qmax _ _, qmin_le_right _ _,
        right_le_qmax _ _, qmin_le_right _ _, right_le_qmax _ _⟩
  · intro x hx
    rcases List.mem_append.mp hx with h1 | h2
    · exact mem_addNotch_left (hnin x h1) r.notch
    · rw [List.mem_singleton.mp h2]
      exact mem_addNotch_self _ _
  · intro n hn
    rcases mem_addNotch_elim hn with h1 | h2
    · obtain ⟨x, hx, hxn⟩ := hnex n h1
      exact ⟨x, List.mem_append_left _ hx, hxn⟩
    · exact ⟨r, List.mem_append_right _ (List.mem_singleton.mpr rfl), h2.symm⟩
  · rcases qmin_choice acc.env.min_height r.height with hc | hc
    · obtain ⟨x, hx, hxe⟩ := he1
      exact ⟨x, List.mem_append_left _ hx, hc.trans hxe⟩
    · exact ⟨r, List.mem_append_right _ (List.mem_singleton.mpr rfl), hc⟩
  · rcases qmax_choice acc.env.max_height r.height with hc | hc
    · obtain ⟨x, hx, hxe⟩ := he2
      exact ⟨x, List.mem_append_left _ hx, hc.trans hxe⟩
    · exact ⟨r, List.mem_append_right _ (List.mem_singleton.mpr rfl), hc⟩
  · rcases qmin_choice acc.env.min_width r.width with hc | hc
    · obtain ⟨x, hx, hxe⟩ := he3
      exact ⟨x, List.mem_append_left _ hx, hc.trans hxe⟩
    · exact ⟨r, List.mem_append_right _ (List.mem_singleton.mpr rfl), hc⟩
  · rcases qmax_choice acc.env.max_width r.width with hc | hc
    · obtain ⟨x, hx, hxe⟩ := he4
      exact ⟨x, List.mem_append_left _ hx, hc.trans hxe⟩
    · exact ⟨r, List.mem_append_right _ (List.mem_singleton.mpr rfl), hc⟩
  · rcases qmin_choice acc.env.min_diagonal r.diagonal with hc | hc
    · obtain ⟨x, hx, hxe⟩ := he5
      exact ⟨x, List.mem_append_left _ hx, hc.trans hxe⟩
    · exact ⟨r, List.mem_append_right _ (List.mem_singleton.mpr rfl), hc⟩
  · rcases qmax_choice acc.env.max_diagonal r.diagonal with hc | hc
    · obtain ⟨x, hx, hxe⟩ := he6
      exact ⟨x, List.mem_append_left _ hx, hc.trans hxe⟩
    · exact ⟨r, List.mem_append_right _ (List.mem_singleton.mpr rfl), hc⟩

theorem accInv_foldl (rs : List Device) : ∀ (l : List Device) (acc : BAcc),
    AccInv l acc → AccInv (l ++ rs) (rs.foldl stepAcc acc) := by
  induction rs with
  | nil => intro l acc h; simpa using h
  | cons r rs ih =>
    intro l acc h
    have := ih (l ++ [r]) (stepAcc acc r) (accInv_step h r)
    simpa [List.append_assoc] using this

theorem gvdb_acc {db : DB} {b m : String} {r : Device} {rs : List Device}
    (h : boundsRows db b m = r :: rs) :
    get_verified_dimension_bounds db b m =
      (some (rs.foldl stepAcc (initAcc r)).largest,
       some (rs.foldl stepAcc (initAcc r)).smallest,
       some (rs.foldl stepAcc (initAcc r)).env) ∧
    AccInv (r :: rs) (rs.foldl stepAcc (initAcc r)) := by
  constructor
  · simp [get_verified_dimension_bounds, h]
  · have := accInv_foldl rs [r] (initAcc r) (accInv_init r)
    simpa using this

theorem dedupKeys_subset {seen : List (String × String)} {l : List (Device × String)}
    {e : Device × String} (h : e ∈ dedupKeys seen l) : e ∈ l := by
  induction l generalizing seen with
  | nil => simp [dedupKeys] at h
  | cons a rest ih =>
    rw [dedupKeys] at h
    split at h
    · exact List.mem_cons_of_mem a (ih h)
    · rcases List.mem_cons.mp h with h1 | h2
      · exact h1 ▸ List.mem_cons_self a rest
      · exact List.mem_cons_of_mem a (ih h2)

theorem dedupKeys_not_seen {seen : List (String × String)} {l : List (Device × String)}
    {e : Device × String} (h : e ∈ dedupKeys seen l) : entryKey e ∉ seen := by
  induction l generalizing seen with
  | nil => simp [dedupKeys] at h
  | cons a rest ih =>
    rw [dedupKeys] at h
    split at h
    next => exact ih h
    next hcond =>
      rcases List.mem_cons.mp h with h1 | h2
      · subst h1; exact hcond
      · exact fun hk => (ih h2) (List.mem_cons_of_mem _ hk)

theorem dedupKeys_keys_nodup (seen : List (String × String)) (l : List (Device × String)) :
    ((dedupKeys seen l).map entryKey).Nodup := by
  induction l generalizing seen with
  | nil => simp [dedupKeys]
  | cons a rest ih =>
    rw [dedupKeys]
    split
    · exact ih seen
    · rw [List.map_cons, List.nodup_cons]
      refine ⟨?_, ih _⟩
      intro hmem
      rcases List.mem_map.mp hmem with ⟨e, he, hk⟩
      exact (dedupKeys_not_seen he) (by rw [hk]; exact List.mem_cons_self _ _)

theorem dedupKeys_sublist (seen : List (String × String)) (l : List (Device × String)) :
    (dedupKeys seen l).Sublist l := by
  induction l generalizing seen with
  | nil => simp [dedupKeys]
  | cons a rest ih =>
    rw [dedupKeys]
    split
    · exact (ih _).cons a
    · exact (ih _).cons₂ a

theorem dedupKeys_append_split (seen : List (String × String))
    (A B : List (Device × String)) :
    ∃ V D, dedupKeys seen (A ++ B) = V ++ D ∧ V.Sublist A ∧ D.Sublist B := by
  induction A generalizing seen with
  | nil =>
    exact ⟨[], dedupKeys seen B, by simp, List.Sublist.refl _, dedupKeys_sublist _ _⟩
  | cons a A ih =>
    rw [List.cons_append, dedupKeys]
    split
    · obtain ⟨V, D, heq, hA, hB⟩ := ih seen
      exact ⟨V, D, heq, hA.cons a, hB⟩
    · obtain ⟨V, D, heq, hA, hB⟩ := ih (entryKey a :: seen)
      exact ⟨a :: V, D, by rw [heq, List.cons_append], hA.cons₂ a, hB⟩

theorem mem_dedupKeys_front {e : Device × String} :
    ∀ (A B : List (Device × String)) (seen : List (String × String)),
      e ∈ A → (A.map entryKey).Nodup → (∀ k ∈ A.map entryKey, k ∉ seen) →
      e ∈ dedupKeys seen (A ++ B) := by
  intro A
  induction A with
  | nil => intro B seen he; simp at he
  | cons a A ih =>
    intro B seen he hnd hks
    rw [List.cons_append, dedupKeys]
    have hka : entryKey a ∉ seen := hks _ (by simp)
    rw [if_neg hka]
    rcases List.mem_cons.mp he with h1 | h2
    · exact h1 ▸ List.mem_cons_self _ _
    · apply List.mem_cons_of_mem
      rw [List.map_cons] at hnd
      rcases List.nodup_cons.mp hnd with ⟨hnotin, hndA⟩
      refine ih B (entryKey a :: seen) h2 hndA ?_
      intro k hk
      rw [List.mem_cons]
      rintro (h1 | h2)
      · exact hnotin (h1 ▸ hk)
      · exact hks k (List.mem_cons_of_mem _ hk) h2

theorem dedupKeys_key_in_front {e : Device × String} :
    ∀ (A B : List (Device × String)) (seen : List (String × String)),
      e ∈ dedupKeys seen (A ++ B) → entryKey e ∈ A.map entryKey → e ∈ A := by
  intro A
  induction A with
  | nil => intro B seen _ hk; simp at hk
  | cons a A ih =>
    intro B seen h hk
    rw [List.cons_append, dedupKeys] at h
    rw [List.map_cons] at hk
    rcases List.mem_cons.mp hk with hk1 | hk2
    · split at h
      next hcond => exact absurd (hk1 ▸ hcond) (dedupKeys_not_seen h)
      next hcond =>
        rcases List.mem_cons.mp h with h1 | h2
        · exact h1 ▸ List.mem_cons_self _ _
        · exact absurd (by rw [hk1]; exact List.mem_cons_self _ _)
            (dedupKeys_not_seen h2)
    · split at h
      next => exact List.mem_cons_of_mem a (ih B seen h hk2)
      next =>
        rcases List.mem_cons.mp h with h1 | h2
        · exact h1 ▸ List.mem_cons_self _ _
        · exact List.mem_cons_of_mem a (ih B (entryKey a :: seen) h2 hk2)

theorem dedupKeys_key_exists {l : List (Device × String)} {k : String × String} :
    ∀ seen, k ∉ seen → (∃ e ∈ l, entryKey e = k) →
      ∃ e ∈ dedupKeys seen l, entryKey e = k := by
  induction l with
  | nil =>
    rintro seen hns ⟨e, he, hk⟩
    simp at he
  | cons a rest ih =>
    rintro seen hns ⟨e, he, hk⟩
    rw [dedupKeys]
    split
    next hcond =>
      rcases List.mem_cons.mp he with h1 | h2
      · exact absurd (by rw [← hk, h1]; exact hcond) hns
      · exact ih seen hns ⟨e, h2, hk⟩
    next hcond =>
      by_cases hak : entryKey a = k
      · exact ⟨a, List.mem_cons_self _ _, hak⟩
      · rcases List.mem_cons.mp he with h1 | h2
        · exact absurd (h1 ▸ hk) hak
        · obtain ⟨f, hf, hfk⟩ := ih (entryKey a :: seen)
            (by rw [List.mem_cons]; rintro (h1 | h2)
                · exact hak h1.symm
                · exact hns h2)
            ⟨e, h2, hk⟩
          exact ⟨f, List.mem_cons_of_mem a hf, hfk⟩

theorem mem_verifiedRows {db : DB} {base : Device} {e : Device × String}
    (h : e ∈ verifiedRows db base) :
    ∃ p ∈ get_compatible_devices db base.brand base.model,
      findDevice db p.1 p.2 = some e.1 ∧ check_compat base e.1 0 0 0 = true ∧
      e.2 = "Verified" := by
  unfold verifiedRows at h
  rcases List.mem_filterMap.mp h with ⟨p, hp, hf⟩
  cases hfd : findDevice db p.1 p.2 with
  | none => rw [hfd] at hf; simp at hf
  | some dev =>
    rw [hfd] at hf
    simp only at hf
    split at hf
    next hc =>
      rcases Option.some.inj hf with rfl
      exact ⟨p, hp, hfd, hc, rfl⟩
    next => simp at hf

theorem verifiedRows_mem_of {db : DB} {base : Device} {p : String × String} {dev : Device}
    (hp : p ∈ get_compatible_devices db base.brand base.model)
    (hf : findDevice db p.1 p.2 = some dev) (hc : check_compat base dev 0 0 0 = true) :
    (dev, "Verified") ∈ verifiedRows db base := by
  unfold verifiedRows
  refine List.mem_filterMap.mpr ⟨p, hp, ?_⟩
  rw [hf]
  simp [hc]

theorem verifiedRows_key {db : DB} {base : Device} {e : Device × String}
    (h : e ∈ verifiedRows db base) :
    ∃ p ∈ get_compatible_devices db base.brand base.model,
      entryKey e = p ∧ findDevice db p.1 p.2 = some e.1 := by
  obtain ⟨p, hp, hf, _, _⟩ := mem_verifiedRows h
  obtain ⟨_, hb, hm⟩ := findDevice_some hf
  refine ⟨p, hp, ?_, hf⟩
  rw [entryKey, deviceKey, hb, hm]

theorem verifiedRows_keys_sublist (db : DB) (base : Device) :
    ((verifiedRows db base).map entryKey).Sublist
      (get_compatible_devices db base.brand base.model) := by
  unfold verifiedRows
  generalize get_compatible_devices db base.brand base.model = ps
  induction ps with
  | nil => simp
  | cons p ps ih =>
    cases hfd : findDevice db p.1 p.2 with
    | none =>
      simp only [List.filterMap_cons, hfd]
      exact ih.cons p
    | some dev =>
      by_cases hc : check_compat base dev 0 0 0 = true
      · simp only [List.filterMap_cons, hfd, hc, if_true, List.map_cons]
        obtain ⟨_, hb, hm⟩ := findDevice_some hfd
        have hk : entryKey (dev, "Verified") = p := by
          rw [entryKey, deviceKey, hb, hm]
        rw [hk]
        exact ih.cons₂ p
      · simp only [List.filterMap_cons, hfd, if_neg hc]
        exact ih.cons p

theorem linkedRows_mem {db : DB} {b m : String} {p : String × String} {dev : Device}
    (hp : p ∈ get_compatible_devices db b m) (hf : findDevice db p.1 p.2 = some dev) :
    dev ∈ linkedRows db b m :=
  List.mem_filterMap.mpr ⟨p, hp, hf⟩

theorem linkedRows_in_glasses {db : DB} {b m : String} {dev : Device}
    (h : dev ∈ linkedRows db b m) : dev ∈ db.glasses := by
  rcases List.mem_filterMap.mp h with ⟨p, _, hf⟩
  exact (findDevice_some hf).1

theorem boundsRows_ne_nil_of_verified {db : DB} {base : Device} {e : Device × String}
    (h : e ∈ verifiedRows db base) : boundsRows db base.brand base.model ≠ [] := by
  obtain ⟨p, hp, hf, _, _⟩ := mem_verifiedRows h
  have hmem : e.1 ∈ linkedRows db base.brand base.model := linkedRows_mem hp hf
  intro hnil
  rw [boundsRows] at hnil
  rcases List.append_eq_nil.mp hnil with ⟨h1, _⟩
  rw [h1] at hmem
  simp at hmem

theorem verifiedRows_nil_of_bounds_none {db : DB} {base : Device}
    (h : (get_verified_dimension_bounds db base.brand base.model).2.2 = none) :
    verifiedRows db base = [] := by
  have hrows := (bounds_none_iff db base.brand base.model).mp h
  cases hv : verifiedRows db base with
  | nil => rfl
  | cons e es =>
    exact absurd hrows (boundsRows_ne_nil_of_verified (hv ▸ List.mem_cons_self e es))

theorem mem_envelopeScan_iff {db : DB} {bd : Bounds} {hT wT dT : ℚ} {g : Device} :
    g ∈ envelopeScan db bd hT wT dT ↔
      g ∈ db.glasses ∧
      (bd.min_height - hT ≤ g.height ∧ g.height ≤ bd.max_height + hT) ∧
      (bd.min_width - wT ≤ g.width ∧ g.width ≤ bd.max_width + hT) ∧
      (bd.min_diagonal - dT ≤ g.diagonal ∧ g.diagonal ≤ bd.max_diagonal + dT) ∧
      (g.notch = "None" ∨ g.notch ∈ bd.notch_types) := by
  unfold envelopeScan
  rw [List.mem_filter]
  simp [List.contains_iff_exists_mem_beq, and_assoc]

theorem mem_fallbackScan_iff {db : DB} {base : Device} {hT wT dT : ℚ} {g : Device} :
    g ∈ fallbackScan db base hT wT dT ↔
      g ∈ db.glasses ∧
      (base.height - hT ≤ g.height ∧ g.height ≤ base.height + hT) ∧
      (base.width - wT ≤ g.width ∧ g.width ≤ base.width + hT) ∧
      (base.diagonal - dT ≤ g.diagonal ∧ g.diagonal ≤ base.diagonal + dT) ∧
      (g.notch = base.notch ∨ g.notch = "None" ∨ base.notch = "None") := by
  unfold fallbackScan
  rw [List.mem_filter]
  simp only [Bool.and_eq_true, decide_eq_true_eq, Bool.or_eq_true, beq_iff_eq, and_assoc,
    or_assoc]

theorem mem_dimensionRows_iff {db : DB} {base : Device} {bd : Bounds} {hT wT dT : ℚ}
    {e : Device × String} :
    e ∈ dimensionRows db base bd hT wT dT ↔
      e.2 = "Dimension-based" ∧ e.1 ∈ envelopeScan db bd hT wT dT ∧
      e.1.area ≤ base.area := by
  cases e with
  | mk g t =>
    unfold dimensionRows
    simp only [List.mem_map, List.mem_filter, decide_eq_true_eq, Prod.mk.injEq]
    constructor
    · rintro ⟨g2, ⟨hscan, harea⟩, rfl, rfl⟩
      exact ⟨rfl, hscan, harea⟩
    · rintro ⟨rfl, hscan, harea⟩
      exact ⟨g, ⟨hscan, harea⟩, rfl, rfl⟩

theorem result_entry_in_glasses {db : DB} {base : Device} {hT wT dT : ℚ}
    {e : Device × String} (h : e ∈ find_compatible_glasses db base hT wT dT) :
    e.1 ∈ db.glasses := by
  unfold find_compatible_glasses at h
  split at h
  · rcases List.mem_map.mp h with ⟨g, hg, rfl⟩
    exact (mem_fallbackScan_iff.mp hg).1
  · rcases List.mem_append.mp (dedupKeys_subset h) with hv | hd
    · obtain ⟨p, _, hf, _, _⟩ := mem_verifiedRows hv
      exact (findDevice_some hf).1
    · exact (mem_envelopeScan_iff.mp (mem_dimensionRows_iff.mp hd).2.1).1

theorem validate_iff {h w d : ℚ} :
    validate_device_dimensions h w d = true ↔
      (0 < h ∧ h ≤ 300 ∧ 0 < w ∧ w ≤ 200 ∧ 0 < d ∧ d ≤ 10) := by
  simp [validate_device_dimensions, and_assoc]

/-! ## Claim theorems -/

/-- C1: for nonnegative tolerances, `check_compat` returns `true` exactly when
all four spec rules hold: notch equality or a "None" wildcard on either side;
height closeness within `heightTol` plus guard-not-taller containment; the
same for width with `widthTol`; diagonal closeness within `diagonalTol` with
no containment direction.  Any single failure yields `false`, and the
function is total on well-formed input. -/
theorem C1_check_compat_rules (guard target : Device) (hT wT dT : ℚ)
    (h1 : 0 ≤ hT) (h2 : 0 ≤ wT) (h3 : 0 ≤ dT) :
    check_compat guard target hT wT dT = true ↔
      ((guard.notch = target.notch ∨ guard.notch = "None" ∨ target.notch = "None") ∧
       (|target.height - guard.height| ≤ hT ∧ guard.height ≤ target.height) ∧
       (|target.width - guard.width| ≤ wT ∧ guard.width ≤ target.width) ∧
       |target.diagonal - guard.diagonal| ≤ dT) := by
  unfold check_compat
  simp only [Bool.and_eq_true, decide_eq_true_eq, Bool.or_eq_true, beq_iff_eq,
    rabs_eq_abs, or_assoc]
  tauto

/-- Witness for C1: a concrete guard/target pair with positive tolerances on
which the equivalence is applied in the satisfied direction. -/
theorem C1_check_compat_rules_witness :
    check_compat wGuard wTarget 2 2 1 = true :=
  (C1_check_compat_rules wGuard wTarget 2 2 1 (by norm_num) (by norm_num)
      (by norm_num)).mpr
    (by refine ⟨Or.inr (Or.inl rfl), ⟨?_, ?_⟩, ⟨?_, ?_⟩, ?_⟩ <;>
          norm_num [wGuard, wTarget])

/-- C8: `add_glass` raises the validation error exactly when the dimensions
fall outside `(0,300]`, `(0,200]`, `(0,10]`; on error the state (catalog and
display-list cache) is returned untouched, and on every successful write the
cache is invalidated and the normalized row is present. -/
theorem C8_add_glass_validation (st : BotState) (brand model : String) (h w d : ℚ)
    (nt : String) :
    ((add_glass st brand model h w d nt).2.isSome = true ↔
      ¬(0 < h ∧ h ≤ 300 ∧ 0 < w ∧ w ≤ 200 ∧ 0 < d ∧ d ≤ 10)) ∧
    ((add_glass st brand model h w d nt).2.isSome = true →
      add_glass st brand model h w d nt = (st, some "Invalid device dimensions")) ∧
    ((add_glass st brand model h w d nt).2 = none →
      (add_glass st brand model h w d nt).1.display_cache = none ∧
      Device.mk brand model h w d (normalize_notch_type nt) ∈
        (add_glass st brand model h w d nt).1.glasses) := by
  by_cases hv : validate_device_dimensions h w d = true
  · rw [add_glass, if_pos hv]
    have hr := validate_iff.mp hv
    refine ⟨by simp [hr], by simp, ?_⟩
    intro _
    exact ⟨rfl, by simp [upsertRow]⟩
  · rw [add_glass, if_neg hv]
    have hr : ¬(0 < h ∧ h ≤ 300 ∧ 0 < w ∧ w ≤ 200 ∧ 0 < d ∧ d ≤ 10) :=
      fun hc => hv (validate_iff.mpr hc)
    exact ⟨by simp [hr], fun _ => rfl, by simp⟩

/-- C9 (code bug): the stored class is always one of the five valid classes,
but the claim that an input naming a valid class is stored as that class
fails for "Punch-hole": Python's `title()` produces "Punch-Hole", which is
not in `VALID_NOTCH_TYPES`, so the input collapses to "None"; the other four
classes round-trip. -/
theorem C9_punch_hole_lost :
    "Punch-hole" ∈ VALID_NOTCH_TYPES ∧
    normalize_notch_type "Punch-hole" = "None" ∧
    normalize_notch_type " punch-hole " = "None" ∧
    normalize_notch_type "None" = "None" ∧
    normalize_notch_type "Waterdrop" = "Waterdrop" ∧
    normalize_notch_type "Notch" = "Notch" ∧
    normalize_notch_type "Full" = "Full" := by
  decide

/-- C2: for every verified-link pair of the resolved base device, a link
whose catalog row no longer exists is skipped without error (no result entry
carries its key), and a link whose row exists appears tagged `Verified` iff
the zero-tolerance `check_compat` with the base as guard passes — a failing
link is silently excluded.  The `Nodup` hypothesis reflects the primary key
of `compatible_devices`. -/
theorem C2_verified_links (db : DB) (base : Device) (hT wT dT : ℚ)
    (hnd : (get_compatible_devices db base.brand base.model).Nodup) :
    ∀ p ∈ get_compatible_devices db base.brand base.model,
      (findDevice db p.1 p.2 = none →
        ∀ e ∈ find_compatible_glasses db base hT wT dT, entryKey e ≠ p) ∧
      (∀ dev, findDevice db p.1 p.2 = some dev →
        ((dev, "Verified") ∈ find_compatible_glasses db base hT wT dT ↔
          check_compat base dev 0 0 0 = true)) := by
  intro p hp
  constructor
  · intro hnone e he
    exact findDevice_none_no_match hnone e.1 (result_entry_in_glasses he)
  · intro dev hfd
    have hlink : dev ∈ linkedRows db base.brand base.model := linkedRows_mem hp hfd
    have hne : boundsRows db base.brand base.model ≠ [] := by
      intro hnil
      rw [boundsRows] at hnil
      rcases List.append_eq_nil.mp hnil with ⟨hl, _⟩
      rw [hl] at hlink
      simp at hlink
    obtain ⟨bd, hb⟩ : ∃ bd,
        (get_verified_dimension_bounds db base.brand base.model).2.2 = some bd := by
      cases hx : (get_verified_dimension_bounds db base.brand base.model).2.2 with
      | none => exact absurd ((bounds_none_iff db base.brand base.model).mp hx) hne
      | some bd => exact ⟨bd, rfl⟩
    have hres : find_compatible_glasses db base hT wT dT =
        dedupKeys [] (verifiedRows db base ++ dimensionRows db base bd hT wT dT) := by
      unfold find_compatible_glasses
      split
      next heq => rw [hb] at heq; simp at heq
      next bd2 heq =>
        rw [hb] at heq
        obtain rfl := Option.some.inj heq
        rfl
    rw [hres]
    constructor
    · intro hmem
      rcases List.mem_append.mp (dedupKeys_subset hmem) with hv | hd
      · obtain ⟨q, hq, hfq, hcq, _⟩ := mem_verifiedRows hv
        exact hcq
      · have hne2 : ("Verified" : String) ≠ "Dimension-based" := by decide
        exact absurd (mem_dimensionRows_iff.mp hd).1 hne2
    · intro hc
      have hvmem : (dev, "Verified") ∈ verifiedRows db base := verifiedRows_mem_of hp hfd hc
      have hknd : ((verifiedRows db base).map entryKey).Nodup :=
        (verifiedRows_keys_sublist db base).nodup hnd
      exact mem_dedupKeys_front (verifiedRows db base)
        (dimensionRows db base bd hT wT dT) [] hvmem hknd (by simp)

/-- Witness for C2: in `dbV` the base is linked to `devT` (identical
dimensions, so the zero-tolerance check passes) and the equivalence yields
its membership tagged `Verified`. -/
theorem C2_verified_links_witness :
    (devT, "Verified") ∈ find_compatible_glasses dbV devBase 5 5 1 :=
  (((C2_verified_links dbV devBase 5 5 1 (by decide)) ("A", "2") (by decide)).2
      devT (by decide)).mpr
    (by norm_num [check_compat, rabs, devBase, devT])

/-- C3 (code bug): the claim says each axis of the envelope scan is widened
by its own tolerance, but the code widens the upper width bound by
`height_tol` (`max_w = bounds['max_width'] + height_tol`, services.py line
415).  With heightTol = 5 and widthTol = 0 the claim's width window is
`[50, 50]`, yet the width-51 device below is selected and returned. -/
theorem C3_width_window_uses_height_tol :
    (get_verified_dimension_bounds db3 "A" "1").2.2 = some envB3 ∧
    envB3.max_width + 0 < devC3.width ∧
    (devC3, "Dimension-based") ∈ find_compatible_glasses db3 devBase 5 0 0 := by
  refine ⟨?_, ?_, ?_⟩
  · norm_num [get_verified_dimension_bounds, boundsRows, linkedRows, selfRows, findDevice,
      get_compatible_devices, db3, devBase, devC3, List.find?, List.filter, initAcc,
      stepAcc, envB3]
  · norm_num [envB3, devC3]
  · norm_num [find_compatible_glasses, get_verified_dimension_bounds, boundsRows,
      linkedRows, selfRows, findDevice, get_compatible_devices, db3, devBase, devC3,
      List.find?, List.filter, initAcc, stepAcc, verifiedRows, dimensionRows,
      envelopeScan, dedupKeys, entryKey, deviceKey, Device.area, qmin, qmax, addNotch] <;>
      decide

/-- C4: the returned sequence never repeats a `(brand, model)` identity; any
result entry whose key occurs among the verified rows carries the `Verified`
tag; every identity produced by either branch (so in particular one produced
by both) has a surviving entry in the result — together with key uniqueness,
an identity produced by both branches survives exactly once, tagged
`Verified`; and the result is a subsequence of the verified rows followed by
a subsequence of the dimension-based rows, preserving relative order within
each source.  The `Nodup` hypothesis reflects the primary key of `glasses`. -/
theorem C4_dedup_and_order (db : DB) (base : Device) (hT wT dT : ℚ)
    (hpk : (db.glasses.map deviceKey).Nodup) :
    ((find_compatible_glasses db base hT wT dT).map entryKey).Nodup ∧
    (∀ e ∈ find_compatible_glasses db base hT wT dT,
      entryKey e ∈ (verifiedRows db base).map entryKey → e.2 = "Verified") ∧
    (∃ vs ds, find_compatible_glasses db base hT wT dT = vs ++ ds ∧
      (∀ e ∈ vs, e.2 = "Verified") ∧ (∀ e ∈ ds, e.2 = "Dimension-based") ∧
      vs.Sublist (verifiedRows db base) ∧
      (∀ bd, (get_verified_dimension_bounds db base.brand base.model).2.2 = some bd →
        ds.Sublist (dimensionRows db base bd hT wT dT))) ∧
    (∀ bd, (get_verified_dimension_bounds db base.brand base.model).2.2 = some bd →
      ∀ k, (k ∈ (verifiedRows db base).map entryKey ∨
            k ∈ (dimensionRows db base bd hT wT dT).map entryKey) →
        ∃ e ∈ find_compatible_glasses db base hT wT dT, entryKey e = k) := by
  cases hb : (get_verified_dimension_bounds db base.brand base.model).2.2 with
  | none =>
    have hvnil : verifiedRows db base = [] := verifiedRows_nil_of_bounds_none hb
    have hres : find_compatible_glasses db base hT wT dT =
        (fallbackScan db base hT wT dT).map (fun g => (g, "Dimension-based")) := by
      unfold find_compatible_glasses
      split
      next => rfl
      next bd heq => rw [hb] at heq; simp at heq
    refine ⟨?_, ?_, ?_, ?_⟩
    · rw [hres, List.map_map]
      have hsub : (fallbackScan db base hT wT dT).Sublist db.glasses :=
        List.filter_sublist _
      exact (hsub.map deviceKey).nodup hpk
    · intro e _ hk
      rw [hvnil] at hk
      simp at hk
    · refine ⟨[], (fallbackScan db base hT wT dT).map (fun g => (g, "Dimension-based")),
        by rw [hres, List.nil_append], by simp, ?_, List.nil_sublist _, ?_⟩
      · intro e he
        rcases List.mem_map.mp he with ⟨g, _, rfl⟩
        rfl
      · intro bd heq
        simp at heq
    · intro bd heq
      simp at heq
  | some bd =>
    have hres : find_compatible_glasses db base hT wT dT =
        dedupKeys [] (verifiedRows db base ++ dimensionRows db base bd hT wT dT) := by
      unfold find_compatible_glasses
      split
      next heq => rw [hb] at heq; simp at heq
      next bd2 heq =>
        rw [hb] at heq
        obtain rfl := Option.some.inj heq
        rfl
    refine ⟨?_, ?_, ?_, ?_⟩
    · rw [hres]
      exact dedupKeys_keys_nodup [] _
    · intro e he hk
      rw [hres] at he
      have heA := dedupKeys_key_in_front (verifiedRows db base)
        (dimensionRows db base bd hT wT dT) [] he hk
      obtain ⟨q, _, _, _, ht⟩ := mem_verifiedRows heA
      exact ht
    · obtain ⟨vs, ds, heq, hvs, hds⟩ := dedupKeys_append_split []
        (verifiedRows db base) (dimensionRows db base bd hT wT dT)
      refine ⟨vs, ds, by rw [hres, heq], ?_, ?_, hvs, ?_⟩
      · intro e he
        obtain ⟨q, _, _, _, ht⟩ := mem_verifiedRows (hvs.subset he)
        exact ht
      · intro e he
        exact (mem_dimensionRows_iff.mp (hds.subset he)).1
      · intro bd2 heq2
        obtain rfl := Option.some.inj heq2
        exact hds
    · intro bd2 heq2
      obtain rfl := Option.some.inj heq2
      intro k hk
      have hk2 : ∃ e0 ∈ verifiedRows db base ++ dimensionRows db base bd hT wT dT,
          entryKey e0 = k := by
        rcases hk with hk | hk
        · rcases List.mem_map.mp hk with ⟨e0, he0, hke⟩
          exact ⟨e0, List.mem_append_left _ he0, hke⟩
        · rcases List.mem_map.mp hk with ⟨e0, he0, hke⟩
          exact ⟨e0, List.mem_append_right _ he0, hke⟩
      obtain ⟨e, he, hek⟩ := dedupKeys_key_exists [] (by simp) hk2
      exact ⟨e, by rw [hres]; exact he, hek⟩

/-- Witness for C4: applied at a one-row catalog satisfying the primary
key. -/
theorem C4_dedup_and_order_witness :
    ((find_compatible_glasses db6 devBase 0 0 0).map entryKey).Nodup :=
  (C4_dedup_and_order db6 devBase 0 0 0 (by decide)).1

/-- C5 counterexample: the null-bounds fallback branch applies no area
filter, so a `Dimension-based` entry can exceed the base area — here a
105 by 55 device is returned for a 100 by 50 base. -/
theorem C5_fallback_area_counterexample :
    (devBig, "Dimension-based") ∈ find_compatible_glasses db5 devBase 5 5 0 ∧
    devBase.height * devBase.width < devBig.height * devBig.width := by
  constructor
  · have hnull : get_verified_dimension_bounds db5 devBase.brand devBase.model =
        (none, none, none) := by decide
    have hres : find_compatible_glasses db5 devBase 5 5 0 =
        (fallbackScan db5 devBase 5 5 0).map (fun g => (g, "Dimension-based")) := by
      unfold find_compatible_glasses
      split
      next => rfl
      next bd heq => rw [hnull] at heq; simp at heq
    rw [hres]
    refine List.mem_map.mpr ⟨devBig, mem_fallbackScan_iff.mpr
      ⟨by simp [db5], ?_, ?_, ?_, ?_⟩, rfl⟩
    · constructor <;> norm_num [devBase, devBig]
    · constructor <;> norm_num [devBase, devBig]
    · constructor <;> norm_num [devBase, devBig]
    · exact Or.inl rfl
  · norm_num [devBase, devBig]

/-- C5 (amended): every entry tagged `Dimension-based` that the
bounds-envelope branch returns satisfies `height * width` at most the base
area; the null-bounds fallback branch applies no such filter. -/
theorem C5_area_monotone_envelope_branch (db : DB) (base : Device) (hT wT dT : ℚ)
    (bd : Bounds)
    (hb : (get_verified_dimension_bounds db base.brand base.model).2.2 = some bd) :
    ∀ e ∈ find_compatible_glasses db base hT wT dT, e.2 = "Dimension-based" →
      e.1.height * e.1.width ≤ base.height * base.width := by
  intro e he htag
  unfold find_compatible_glasses at he
  split at he
  next heq => rw [hb] at heq; simp at heq
  next bd2 heq =>
    rw [hb] at heq
    obtain rfl := Option.some.inj heq
    rcases List.mem_append.mp (dedupKeys_subset he) with hv | hd
    · obtain ⟨q, _, _, _, ht⟩ := mem_verifiedRows hv
      rw [htag] at ht
      exact absurd ht (by decide)
    · have harea := (mem_dimensionRows_iff.mp hd).2.2
      simpa [Device.area] using harea

/-- Witness for C5 (amended): applied in the bounds-envelope branch of a
one-row catalog. -/
theorem C5_area_monotone_envelope_branch_witness :
    (devBase, "Dimension-based") ∈ find_compatible_glasses db6 devBase 0 0 0 ∧
    devBase.height * devBase.width ≤ devBase.height * devBase.width := by
  have hb : (get_verified_dimension_bounds db6 devBase.brand devBase.model).2.2 =
      some envB3 := by
    norm_num [get_verified_dimension_bounds, boundsRows, linkedRows, selfRows, findDevice,
      get_compatible_devices, db6, devBase, List.find?, List.filter, initAcc, stepAcc,
      envB3]
  have hmem : (devBase, "Dimension-based") ∈ find_compatible_glasses db6 devBase 0 0 0 := by
    norm_num [find_compatible_glasses, get_verified_dimension_bounds, boundsRows,
      linkedRows, selfRows, findDevice, get_compatible_devices, db6, devBase,
      List.find?, List.filter, initAcc, stepAcc, verifiedRows, dimensionRows,
      envelopeScan, dedupKeys, entryKey, deviceKey, Device.area, qmin, qmax, addNotch]
  exact ⟨hmem,
    C5_area_monotone_envelope_branch db6 devBase 0 0 0 envB3 hb _ hmem rfl⟩

/-- C6 counterexample: (i) a resolved device with no verified links whose own
catalog row exists gets a non-null bounds triple, contradicting the claimed
null triple; (ii) in the genuine null-bounds fallback the upper width bound
is widened by heightTol rather than widthTol: with heightTol = 5 and
widthTol = 0 a width-53 device is returned around a width-50 base. -/
theorem C6_fallback_counterexample :
    (get_compatible_devices db6 "A" "1" = [] ∧
     get_verified_dimension_bounds db6 "A" "1" =
       (some devBase, some devBase, some envB3)) ∧
    (get_compatible_devices db6c "A" "1" = [] ∧
     (devWide, "Dimension-based") ∈ find_compatible_glasses db6c devBase 5 0 0 ∧
     devBase.width + 0 < devWide.width) := by
  refine ⟨⟨by decide, ?_⟩, by decide, ?_, ?_⟩
  · norm_num [get_verified_dimension_bounds, boundsRows, linkedRows, selfRows, findDevice,
      get_compatible_devices, db6, devBase, List.find?, List.filter, initAcc, stepAcc,
      envB3]
  · have hnull : get_verified_dimension_bounds db6c devBase.brand devBase.model =
        (none, none, none) := by decide
    have hres : find_compatible_glasses db6c devBase 5 0 0 =
        (fallbackScan db6c devBase 5 0 0).map (fun g => (g, "Dimension-based")) := by
      unfold find_compatible_glasses
      split
      next => rfl
      next bd heq => rw [hnull] at heq; simp at heq
    rw [hres]
    refine List.mem_map.mpr ⟨devWide, mem_fallbackScan_iff.mpr
      ⟨by simp [db6c], ?_, ?_, ?_, ?_⟩, rfl⟩
    · constructor <;> norm_num [devBase, devWide]
    · constructor <;> norm_num [devBase, devWide]
    · constructor <;> norm_num [devBase, devWide]
    · exact Or.inl rfl
  · norm_num [devBase, devWide]

/-- C6 (amended): the null triple is returned exactly when the device has no
verified-linked catalog rows (a link whose target row is missing counts for
nothing, so links may exist but all dangle) and its own catalog row is also
absent; in that null case the verified step necessarily produced nothing and
`find_compatible_glasses` returns exactly the fallback scan, tagged
`Dimension-based`, whose height and diagonal windows are widened by their
own tolerance on both sides while the width window is widened by widthTol
below but heightTol above (services.py line 397). -/
theorem C6_nullbounds_fallback (db : DB) (base : Device) (hT wT dT : ℚ) :
    (get_verified_dimension_bounds db base.brand base.model = (none, none, none) ↔
      linkedRows db base.brand base.model = [] ∧
      findDevice db base.brand base.model = none) ∧
    (linkedRows db base.brand base.model = [] →
      findDevice db base.brand base.model = none →
      verifiedRows db base = [] ∧
      (∀ e ∈ find_compatible_glasses db base hT wT dT, e.2 = "Dimension-based") ∧
      (∀ g : Device, (g, "Dimension-based") ∈ find_compatible_glasses db base hT wT dT ↔
        g ∈ db.glasses ∧
        (base.height - hT ≤ g.height ∧ g.height ≤ base.height + hT) ∧
        (base.width - wT ≤ g.width ∧ g.width ≤ base.width + hT) ∧
        (base.diagonal - dT ≤ g.diagonal ∧ g.diagonal ≤ base.diagonal + dT) ∧
        (g.notch = base.notch ∨ g.notch = "None" ∨ base.notch = "None"))) := by
  constructor
  · constructor
    · intro hnull
      have h22 : (get_verified_dimension_bounds db base.brand base.model).2.2 = none := by
        rw [hnull]
      have hrows := (bounds_none_iff db base.brand base.model).mp h22
      rw [boundsRows] at hrows
      rcases List.append_eq_nil.mp hrows with ⟨h1, h2⟩
      refine ⟨h1, ?_⟩
      rw [selfRows] at h2
      cases hf : findDevice db base.brand base.model with
      | none => rfl
      | some g => rw [hf] at h2; simp at h2
    · rintro ⟨hlinked, hrow⟩
      have hrows : boundsRows db base.brand base.model = [] := by
        rw [boundsRows, hlinked, selfRows, hrow]
        rfl
      simp [get_verified_dimension_bounds, hrows]
  · intro hlinked hrow
    have hrows : boundsRows db base.brand base.model = [] := by
      rw [boundsRows, hlinked, selfRows, hrow]
      rfl
    have hnull2 : (get_verified_dimension_bounds db base.brand base.model).2.2 = none :=
      (bounds_none_iff db base.brand base.model).mpr hrows
    have hvnil : verifiedRows db base = [] := verifiedRows_nil_of_bounds_none hnull2
    have hres : find_compatible_glasses db base hT wT dT =
        (fallbackScan db base hT wT dT).map (fun g => (g, "Dimension-based")) := by
      unfold find_compatible_glasses
      split
      next => rfl
      next bd heq => rw [hnull2] at heq; simp at heq
    refine ⟨hvnil, ?_, ?_⟩
    · intro e he
      rw [hres] at he
      rcases List.mem_map.mp he with ⟨g, _, rfl⟩
      rfl
    · intro g
      rw [hres]
      constructor
      · intro hmem
        rcases List.mem_map.mp hmem with ⟨g2, hg2, heq⟩
        injection heq with hg heq2
        subst hg
        exact mem_fallbackScan_iff.mp hg2
      · intro hcond
        exact List.mem_map.mpr ⟨g, mem_fallbackScan_iff.mpr hcond, rfl⟩

/-- Witness for C6 (amended): a base with no linked catalog rows and no
catalog row of its own, in both directions of the equivalence. -/
theorem C6_nullbounds_fallback_witness :
    get_verified_dimension_bounds db6c devBase.brand devBase.model =
      (none, none, none) ∧
    verifiedRows db6c devBase = [] :=
  ⟨((C6_nullbounds_fallback db6c devBase 5 0 0).1).mpr ⟨by decide, by decide⟩,
   ((C6_nullbounds_fallback db6c devBase 5 0 0).2 (by decide) (by decide)).1⟩

/-- C7: the null triple is returned exactly when the scanned set (linked
rows still in the catalog, plus the device's own row) is empty, which
forces the own row to be absent; dangling links are skipped, since every
linked row is a catalog row; otherwise the returned pair are members of the
set attaining the maximal and minimal area, and the envelope holds the
attained element-wise min and max of height, width and diagonal together
with exactly the notch classes observed. -/
theorem C7_bounds_spec (db : DB) (b m : String) :
    (get_verified_dimension_bounds db b m = (none, none, none) ↔
      boundsRows db b m = []) ∧
    (boundsRows db b m = [] → findDevice db b m = none) ∧
    (∀ dev ∈ linkedRows db b m, dev ∈ db.glasses) ∧
    (boundsRows db b m ≠ [] →
      ∃ L S bd, get_verified_dimension_bounds db b m = (some L, some S, some bd) ∧
        L ∈ boundsRows db b m ∧ S ∈ boundsRows db b m ∧
        (∀ x ∈ boundsRows db b m, x.area ≤ L.area) ∧
        (∀ x ∈ boundsRows db b m, S.area ≤ x.area) ∧
        (∀ x ∈ boundsRows db b m, envMem bd x) ∧
        (∃ x ∈ boundsRows db b m, bd.min_height = x.height) ∧
        (∃ x ∈ boundsRows db b m, bd.max_height = x.height) ∧
        (∃ x ∈ boundsRows db b m, bd.min_width = x.width) ∧
        (∃ x ∈ boundsRows db b m, bd.max_width = x.width) ∧
        (∃ x ∈ boundsRows db b m, bd.min_diagonal = x.diagonal) ∧
        (∃ x ∈ boundsRows db b m, bd.max_diagonal = x.diagonal) ∧
        (∀ x ∈ boundsRows db b m, x.notch ∈ bd.notch_types) ∧
        (∀ n ∈ bd.notch_types, ∃ x ∈ boundsRows db b m, x.notch = n)) := by
  refine ⟨?_, ?_, fun dev hdev => linkedRows_in_glasses hdev, ?_⟩
  · cases h : boundsRows db b m with
    | nil => simp [get_verified_dimension_bounds, h]
    | cons r rs => simp [get_verified_dimension_bounds, h]
  · intro h
    rw [boundsRows] at h
    rcases List.append_eq_nil.mp h with ⟨_, h2⟩
    rw [selfRows] at h2
    cases hf : findDevice db b m with
    | none => rfl
    | some g => rw [hf] at h2; simp at h2
  · intro hne
    obtain ⟨r, rs, hrrs⟩ := List.exists_cons_of_ne_nil hne
    obtain ⟨heq, hinv⟩ := gvdb_acc hrrs
    obtain ⟨hL, hS, hLa, hSa, hmaxa, hmina, henv, hnin, hnex,
      he1, he2, he3, he4, he5, he6⟩ := hinv
    rw [hrrs]
    refine ⟨(rs.foldl stepAcc (initAcc r)).largest,
      (rs.foldl stepAcc (initAcc r)).smallest,
      (rs.foldl stepAcc (initAcc r)).env, heq, hL, hS, ?_, ?_,
      henv, he1, he2, he3, he4, he5, he6, hnin, hnex⟩
    · intro x hx
      have hx2 := hmaxa x hx
      rwa [hLa] at hx2
    · intro x hx
      have hx2 := hmina x hx
      rwa [hSa] at hx2

/-- Witness for C7: applied at a snapshot with no links and no catalog row
for the queried identity. -/
theorem C7_bounds_spec_witness :
    get_verified_dimension_bounds db6c "A" "1" = (none, none, none) ↔
      boundsRows db6c "A" "1" = [] :=
  (C7_bounds_spec db6c "A" "1").1

/-- Witness for C8: the spec scenario `height_mm = 305` is rejected and the
state, cache included, is returned unchanged. -/
theorem C8_add_glass_validation_witness :
    add_glass ⟨[], some []⟩ "A" "1" 305 50 6 "None" =
      (⟨[], some []⟩, some "Invalid device dimensions") :=
  (C8_add_glass_validation ⟨[], some []⟩ "A" "1" 305 50 6 "None").2.1 (by decide)

/-- C10: with nonnegative tolerances, when the resolved base's catalog row
is the base record itself and `glasses` satisfies its primary key, the
result of `find_compatible_glasses` contains the base device: its own
dimensions lie inside its envelope, its area equals the base area, and its
notch class is allowed, so a device is always reported compatible with
itself. -/
theorem C10_self_inclusion (db : DB) (base : Device) (hT wT dT : ℚ)
    (hrow : findDevice db base.brand base.model = some base)
    (hpk : (db.glasses.map deviceKey).Nodup)
    (h1 : 0 ≤ hT) (h2 : 0 ≤ wT) (h3 : 0 ≤ dT) :
    ∃ tag, (base, tag) ∈ find_compatible_glasses db base hT wT dT ∧
      (tag = "Verified" ∨ tag = "Dimension-based") := by
  have hbmem : base ∈ db.glasses := (findDevice_some hrow).1
  have hself : base ∈ boundsRows db base.brand base.model := by
    rw [boundsRows, selfRows, hrow]
    exact List.mem_append_right _ (List.mem_singleton.mpr rfl)
  have hne : boundsRows db base.brand base.model ≠ [] := by
    intro h
    rw [h] at hself
    simp at hself
  obtain ⟨r, rs, hrrs⟩ := List.exists_cons_of_ne_nil hne
  obtain ⟨heq, hinv⟩ := gvdb_acc hrrs
  have hb : (get_verified_dimension_bounds db base.brand base.model).2.2 =
      some (rs.foldl stepAcc (initAcc r)).env := by
    rw [heq]
  obtain ⟨_, _, _, _, _, _, henv, hnin, _, _, _, _, _, _, _⟩ := hinv
  have hbmemrows : base ∈ r :: rs := hrrs ▸ hself
  obtain ⟨e1, e2, e3, e4, e5, e6⟩ := henv base hbmemrows
  have hnotch := hnin base hbmemrows
  have hscan : base ∈ envelopeScan db (rs.foldl stepAcc (initAcc r)).env hT wT dT :=
    mem_envelopeScan_iff.mpr ⟨hbmem, ⟨by linarith, by linarith⟩,
      ⟨by linarith, by linarith⟩, ⟨by linarith, by linarith⟩, Or.inr hnotch⟩
  have hdim : (base, "Dimension-based") ∈
      dimensionRows db base (rs.foldl stepAcc (initAcc r)).env hT wT dT :=
    mem_dimensionRows_iff.mpr ⟨rfl, hscan, le_rfl⟩
  have hres : find_compatible_glasses db base hT wT dT =
      dedupKeys [] (verifiedRows db base ++
        dimensionRows db base (rs.foldl stepAcc (initAcc r)).env hT wT dT) := by
    unfold find_compatible_glasses
    split
    next heq2 => rw [hb] at heq2; simp at heq2
    next bd heq2 =>
      rw [hb] at heq2
      obtain rfl := Option.some.inj heq2
      rfl
  obtain ⟨e, he, hek⟩ := dedupKeys_key_exists [] (by simp)
    ⟨(base, "Dimension-based"), List.mem_append_right _ hdim, rfl⟩
  rcases List.mem_append.mp (dedupKeys_subset he) with hv | hd
  · obtain ⟨p, hp, hkp, hfp⟩ := verifiedRows_key hv
    have hp2 : p = (base.brand, base.model) := by
      rw [← hkp, hek]
      rfl
    rw [hp2] at hfp
    have hfb : findDevice db base.brand base.model = some e.1 := hfp
    have he1 : e.1 = base := Option.some.inj (hfb.symm.trans hrow)
    obtain ⟨q, hq, hfq, hcq, ht⟩ := mem_verifiedRows hv
    obtain ⟨g, t⟩ := e
    refine ⟨t, ?_, Or.inl ht⟩
    rw [hres]
    have hgb : g = base := he1
    subst hgb
    exact he
  · have hd1 := mem_dimensionRows_iff.mp hd
    have hg : e.1 ∈ db.glasses := (mem_envelopeScan_iff.mp hd1.2.1).1
    have hkeq : deviceKey e.1 = deviceKey base := hek
    have he1 : e.1 = base := List.inj_on_of_nodup_map hpk hg hbmem hkeq
    obtain ⟨g, t⟩ := e
    refine ⟨t, ?_, Or.inr hd1.1⟩
    rw [hres]
    have hgb : g = base := he1
    subst hgb
    exact he

/-- Witness for C10: a one-row catalog whose only device is the base. -/
theorem C10_self_inclusion_witness :
    ∃ tag, (devBase, tag) ∈ find_compatible_glasses db6 devBase 0 0 0 ∧
      (tag = "Verified" ∨ tag = "Dimension-based") :=
  C10_self_inclusion db6 devBase 0 0 0 (by decide) (by decide) le_rfl le_rfl le_rfl

end GlassBot
